import Mathlib

/-!
Verification development for the AI interview service (`ai_service`).

The Python sources (`main.py`, `chains.py`, `session_manager.py`, `config.py`)
are shallowly embedded below.  Strings are modelled as lists of characters
(`Str`), and the Python string helpers the code relies on (`strip`, `split`,
`replace`, `startswith`, `lower`, substring tests) are given Python-faithful
structural definitions.  `json.loads` is modelled by a fuel-based recursive
descent parser over the JSON grammar; JSON numbers are represented as exact
decimals (an integer mantissa together with a power-of-ten denominator), which
matches the integral and one-decimal values the service manipulates.  Wall
clock readings and the language-model collaborator's raw replies are passed to
the embedded operations as explicit arguments.
-/

/-! ## Python string primitives -/

abbrev Str := List Char

/-- Whitespace as treated by Python `str.strip()` and by `\s` in `re`
patterns over `str`: exactly the code points for which `str.isspace()` is
true. -/
def isWS (c : Char) : Bool :=
  decide (c.toNat ∈ [0x09, 0x0A, 0x0B, 0x0C, 0x0D, 0x1C, 0x1D, 0x1E, 0x1F, 0x20,
    0x85, 0xA0, 0x1680, 0x2028, 0x2029, 0x202F, 0x205F, 0x3000])
  || decide (0x2000 ≤ c.toNat ∧ c.toNat ≤ 0x200A)

/-- Python `str.strip()`: drop whitespace from both ends. -/
def strTrim (s : Str) : Str :=
  ((s.dropWhile isWS).reverse.dropWhile isWS).reverse

/-- Python `str.split(sep)` for a one-character separator. -/
def strSplitOn (sep : Char) : Str → List Str
  | [] => [[]]
  | c :: rest =>
    if c = sep then [] :: strSplitOn sep rest
    else
      match strSplitOn sep rest with
      | [] => [[c]]
      | l :: ls => (c :: l) :: ls

/-- Helper for `strReplaceAll`, structurally recursive on a fuel counter that
is initialised to the length of the scanned string (one unit per consumed
character suffices because every step consumes at least one character). -/
def replAux (pat repl : Str) : Nat → Str → Str
  | _, [] => []
  | 0, s => s
  | fuel + 1, c :: rest =>
    if pat.isPrefixOf (c :: rest) ∧ pat ≠ [] then
      repl ++ replAux pat repl fuel (rest.drop (pat.length - 1))
    else
      c :: replAux pat repl fuel rest

/-- Python `str.replace(pat, repl)`: replace every non-overlapping occurrence,
scanning left to right.  (The service only ever calls it with a non-empty
pattern.) -/
def strReplaceAll (pat repl s : Str) : Str :=
  replAux pat repl s.length s

/-- Python `pat in s` substring test. -/
def containsSub (pat : Str) : Str → Bool
  | [] => pat.isEmpty
  | c :: rest => pat.isPrefixOf (c :: rest) || containsSub pat rest

/-- Python `str.lower()` (ASCII case folding, which covers every keyword the
service matches on). -/
def strLower (s : Str) : Str := s.map Char.toLower

/-! ## Transcript codec and history reconstruction (`main.py`) -/

/-- Tag prefixing interviewer lines in the transcript. -/
def aiTag : Str := ("[AI] ").data

/-- Tag prefixing candidate lines in the transcript. -/
def candTag : Str := ("[CANDIDATE] ").data

/-- Tag prefixing persisted-question-id marker lines. -/
def qidTag : Str := ("[QID] ").data

/-- The bare `[AI]` tag, as used by the last-question scan in
`handle_answer` (which calls `startswith("[AI]")` without the space). -/
def aiTagBare : Str := ("[AI]").data

/-- Turn type of a reconstructed history entry. -/
inductive TurnType where
  | question
  | answer
deriving DecidableEq

/-- One reconstructed history entry: `{"type": ..., "content": ...}`. -/
structure Turn where
  type : TurnType
  content : Str
deriving DecidableEq

/-- Serialisation of one turn as appended to the transcript by
`start_interview` and `handle_answer`: a tagged line. -/
def encodeTurn (t : Turn) : Str :=
  (match t.type with
   | TurnType.question => aiTag
   | TurnType.answer => candTag) ++ t.content

/-- Serialisation of a list of turns: each tagged line followed by a newline,
exactly as the `transcript += f"..."` statements build it. -/
def encodeTranscript (ts : List Turn) : Str :=
  match ts with
  | [] => []
  | t :: rest => encodeTurn t ++ '\n' :: encodeTranscript rest

/-- Classification of one transcript line, mirroring the `if`/`elif` in
`_build_history_from_transcript` (note that Python's `replace` removes every
occurrence of the tag, not only the leading one). -/
def classifyLine (line : Str) : Option Turn :=
  if aiTag.isPrefixOf line then
    some ⟨TurnType.question, strReplaceAll aiTag [] line⟩
  else if candTag.isPrefixOf line then
    some ⟨TurnType.answer, strReplaceAll candTag [] line⟩
  else
    none

/-- Embedding of `_build_history_from_transcript` (main.py:374-392): the
Python `for` loop appending to `history`. -/
def buildHistoryFromTranscript (transcript : Str) : List Turn :=
  if transcript = [] then []
  else
    (strSplitOn '\n' (strTrim transcript)).foldl
      (fun history line =>
        match classifyLine line with
        | some t => history ++ [t]
        | none => history)
      []

/-- Embedding of `_extract_last_question_id` (main.py:395-402). -/
def extractLastQuestionId (transcript : Str) : Option Str :=
  if transcript = [] then none
  else
    ((strSplitOn '\n' (strTrim transcript)).reverse.find?
        (fun line => qidTag.isPrefixOf line)).map
      (fun line => strTrim (strReplaceAll qidTag [] line))

/-- Embedding of `_extract_resume_context` (main.py:361-371). -/
def extractResumeContext (transcript : Str) : Str :=
  let deflt : Str := ("Candidate's resume provided.").data
  if transcript = [] then deflt
  else
    match (strSplitOn '\n' transcript).find?
        (fun line => ("[SYSTEM] Resume parsed for:").data.isPrefixOf line) with
    | some line =>
        ("Candidate: ").data ++
          strTrim (strReplaceAll ("[SYSTEM] Resume parsed for:").data [] line)
    | none => deflt

/-- Embedding of `_extract_job_description` (main.py:405-414). -/
def extractJobDescription (transcript : Str) : Str :=
  let deflt : Str :=
    ("Software Engineer role requiring strong technical skills and problem solving.").data
  if transcript = [] then deflt
  else
    match (strSplitOn '\n' transcript).find?
        (fun line => ("[SYSTEM] Job description:").data.isPrefixOf line) with
    | some line =>
        strTrim (strReplaceAll ("[SYSTEM] Job description:").data [] line)
    | none => deflt

/-! ## JSON values and `json.loads` (`chains.py` collaborator parsing) -/

/-- Python JSON values.  Numbers are exact decimals: `num m e` denotes
`m / 10 ^ e`, which covers every numeric literal the service manipulates. -/
inductive Jv where
  | null
  | bool (b : Bool)
  | num (mantissa : Int) (exp10 : Nat)
  | str (s : Str)
  | arr (elems : List Jv)
  | obj (members : List (Str × Jv))

/-- First-match lookup in an insertion-ordered dictionary (the parser below
only ever builds dictionaries with distinct keys, as Python dicts have). -/
def lookupD : List (Str × Jv) → Str → Option Jv
  | [], _ => none
  | (k', v') :: rest, k => if k' = k then some v' else lookupD rest k

/-- Python `d[k] = v` on a dict: update in place if the key exists, else
append preserving insertion order. -/
def dictSet : List (Str × Jv) → Str → Jv → List (Str × Jv)
  | [], k, v => [(k, v)]
  | (k', v') :: rest, k, v =>
    if k' = k then (k', v) :: rest else (k', v') :: dictSet rest k v

/-- Whitespace as skipped by Python's JSON decoder: unlike `str.strip()`,
only these four characters. -/
def isJsonWS (c : Char) : Bool := c = ' ' || c = '\t' || c = '\n' || c = '\r'

/-- Whitespace skipping inside `json.loads`. -/
def skipWs (s : Str) : Str := s.dropWhile isJsonWS

/-- Value of a hexadecimal digit. -/
def hexVal (c : Char) : Option Nat :=
  if '0' ≤ c ∧ c ≤ '9' then some (c.toNat - 48)
  else if 'a' ≤ c ∧ c ≤ 'f' then some (c.toNat - 87)
  else if 'A' ≤ c ∧ c ≤ 'F' then some (c.toNat - 55)
  else none

/-- Single-character JSON string escapes. -/
def escChar (e : Char) : Option Char :=
  if e = '"' then some '"'
  else if e = '\\' then some '\\'
  else if e = '/' then some '/'
  else if e = 'b' then some '\x08'
  else if e = 'f' then some '\x0c'
  else if e = 'n' then some '\n'
  else if e = 'r' then some '\r'
  else if e = 't' then some '\t'
  else none

/-- Body of a JSON string after the opening quote; returns the decoded
characters and the remainder after the closing quote.  Raw control
characters are rejected, as Python's strict-mode decoder does. -/
def parseStringAux : Str → Option (Str × Str)
  | [] => none
  | c :: rest =>
    if c = '"' then some ([], rest)
    else if c = '\\' then
      match rest with
      | [] => none
      | e :: rest2 =>
        if e = 'u' then
          match rest2 with
          | h1 :: h2 :: h3 :: h4 :: rest3 =>
            match hexVal h1, hexVal h2, hexVal h3, hexVal h4 with
            | some a, some b, some c2, some d =>
              match parseStringAux rest3 with
              | some (out, r) => some (Char.ofNat (((a * 16 + b) * 16 + c2) * 16 + d) :: out, r)
              | none => none
            | _, _, _, _ => none
          | _ => none
        else
          match escChar e with
          | some ec =>
            match parseStringAux rest2 with
            | some (out, r) => some (ec :: out, r)
            | none => none
          | none => none
    else if c.toNat < 32 then none
    else
      match parseStringAux rest with
      | some (out, r) => some (c :: out, r)
      | none => none

/-- Digit string to natural number. -/
def natOfDigits (ds : Str) : Nat :=
  ds.foldl (fun acc c => acc * 10 + (c.toNat - 48)) 0

/-- Optionally signed digit run (used for JSON exponents, where leading
zeros are permitted). -/
def parseSignedNat (s : Str) : Option (Bool × Nat × Str) :=
  let (neg, s1) : Bool × Str :=
    match s with
    | '+' :: r => (false, r)
    | '-' :: r => (true, r)
    | _ => (false, s)
  match s1.takeWhile Char.isDigit with
  | [] => none
  | ds => some (neg, natOfDigits ds, s1.dropWhile Char.isDigit)

/-- Assemble a parsed JSON number from sign, mantissa digits, fractional
length and exponent. -/
def mkJvNum (neg : Bool) (m : Nat) (fracLen : Nat) (e : Int) : Jv :=
  let net : Int := e - fracLen
  let p : Int × Nat :=
    if 0 ≤ net then ((m : Int) * 10 ^ net.toNat, 0)
    else ((m : Int), (-net).toNat)
  Jv.num (if neg then -p.1 else p.1) p.2

/-- JSON number literal, following the grammar Python's decoder uses
(`-?(0|[1-9][0-9]*)(\.[0-9]+)?([eE][+-]?[0-9]+)?`); like the regex, the
fractional and exponent parts are only consumed when complete. -/
def parseNumber (s : Str) : Option (Jv × Str) :=
  let (neg, s1) : Bool × Str :=
    match s with
    | '-' :: r => (true, r)
    | _ => (false, s)
  let (intDigits, rest1) : Str × Str :=
    match s1 with
    | '0' :: r => (['0'], r)
    | _ => (s1.takeWhile Char.isDigit, s1.dropWhile Char.isDigit)
  if intDigits = [] then none
  else
    let (fracDigits, rest2) : Str × Str :=
      match rest1 with
      | '.' :: r =>
        match r.takeWhile Char.isDigit with
        | [] => ([], rest1)
        | fd => (fd, r.dropWhile Char.isDigit)
      | _ => ([], rest1)
    let (eVal, rest3) : Int × Str :=
      match rest2 with
      | c :: r =>
        if c = 'e' ∨ c = 'E' then
          match parseSignedNat r with
          | some (eneg, n, r2) => ((if eneg then -(n : Int) else (n : Int)), r2)
          | none => (0, rest2)
        else (0, rest2)
      | [] => (0, rest2)
    some (mkJvNum neg (natOfDigits (intDigits ++ fracDigits)) fracDigits.length eVal, rest3)

mutual

/-- One JSON value (fuel-based recursive descent; the fuel passed by
`jsonLoads` always suffices because every recursive call consumes at least
one character first). -/
def parseJv : Nat → Str → Option (Jv × Str)
  | 0, _ => none
  | fuel + 1, s0 =>
    match skipWs s0 with
    | [] => none
    | c :: rest =>
      if c = '\x7b' then
        match skipWs rest with
        | '\x7d' :: r => some (Jv.obj [], r)
        | _ =>
          match parseObjMembers fuel rest with
          | some (ms, r) =>
            some (Jv.obj (ms.foldl (fun d kv => dictSet d kv.1 kv.2) []), r)
          | none => none
      else if c = '[' then
        match skipWs rest with
        | ']' :: r => some (Jv.arr [], r)
        | _ =>
          match parseArrElems fuel rest with
          | some (vs, r) => some (Jv.arr vs, r)
          | none => none
      else if c = '"' then
        match parseStringAux rest with
        | some (out, r) => some (Jv.str out, r)
        | none => none
      else if c = 'n' then
        match rest with
        | 'u' :: 'l' :: 'l' :: r => some (Jv.null, r)
        | _ => none
      else if c = 't' then
        match rest with
        | 'r' :: 'u' :: 'e' :: r => some (Jv.bool true, r)
        | _ => none
      else if c = 'f' then
        match rest with
        | 'a' :: 'l' :: 's' :: 'e' :: r => some (Jv.bool false, r)
        | _ => none
      else parseNumber (c :: rest)

/-- Object members after the opening brace (non-empty object). -/
def parseObjMembers : Nat → Str → Option (List (Str × Jv) × Str)
  | 0, _ => none
  | fuel + 1, s =>
    match skipWs s with
    | '"' :: rest =>
      match parseStringAux rest with
      | some (key, r1) =>
        match skipWs r1 with
        | ':' :: r2 =>
          match parseJv fuel r2 with
          | some (v, r3) =>
            match skipWs r3 with
            | ',' :: r4 =>
              match parseObjMembers fuel r4 with
              | some (ms, r5) => some ((key, v) :: ms, r5)
              | none => none
            | '\x7d' :: r4 => some ([(key, v)], r4)
            | _ => none
          | none => none
        | _ => none
      | none => none
    | _ => none

/-- Array elements after the opening bracket (non-empty array). -/
def parseArrElems : Nat → Str → Option (List Jv × Str)
  | 0, _ => none
  | fuel + 1, s =>
    match parseJv fuel s with
    | some (v, r1) =>
      match skipWs r1 with
      | ',' :: r2 =>
        match parseArrElems fuel r2 with
        | some (vs, r3) => some (v :: vs, r3)
        | none => none
      | ']' :: r2 => some ([v], r2)
      | _ => none
    | none => none

end

/-- Embedding of Python `json.loads`: one value, optionally surrounded by
whitespace; `none` models a raised `json.JSONDecodeError`. -/
def jsonLoads (s : Str) : Option Jv :=
  match parseJv (2 * s.length + 2) s with
  | some (v, rest) => if skipWs rest = [] then some v else none
  | none => none

/-! ## `_clean_json_response` (chains.py:26-40) -/

/-- Fence marker `"```json"`. -/
def fencePatJson : Str := ("```json").data

/-- Fence marker `"```"`. -/
def fencePat : Str := ("```").data

/-- Model of `re.sub(r'^PAT\s*', '', s)` for a literal pattern: one removal
anchored at the start, together with the following whitespace run. -/
def stripLeading (pat : Str) (s : Str) : Str :=
  if pat.isPrefixOf s then (s.drop pat.length).dropWhile isWS else s

/-- Model of `re.sub(r'\s*```$', '', s)`: one removal anchored at the end
(after the initial `strip` the string has no trailing newline, so `$` is the
end of the string). -/
def stripTrailingFence (s : Str) : Str :=
  if fencePat.isSuffixOf s then ((s.reverse.drop 3).dropWhile isWS).reverse else s

/-- Model of `re.search(r'\{[\s\S]*\}', s)`: with the greedy quantifier the
match, when it exists, runs from the first brace that has a closing brace
after it (hence from the first opening brace) to the last closing brace. -/
def findBraceRegion (s : Str) : Option Str :=
  match s.findIdx? (fun c => c = '\x7b'), s.reverse.findIdx? (fun c => c = '\x7d') with
  | some i, some k =>
    let j := s.length - 1 - k
    if i < j then some ((s.drop i).take (j - i + 1)) else none
  | _, _ => none

/-- Embedding of `_clean_json_response` (chains.py:26-40).  `none` models an
uncaught exception: only the first `json.loads` is guarded by the
`try`/`except`, so a failure of the second one propagates to the caller. -/
def cleanJsonResponse (text : Str) : Option Jv :=
  let cleaned0 := strTrim text
  let cleaned1 := stripLeading fencePatJson cleaned0
  let cleaned2 := stripLeading fencePat cleaned1
  let cleaned3 := stripTrailingFence cleaned2
  let cleaned := strTrim cleaned3
  match jsonLoads cleaned with
  | some v => some v
  | none =>
    match findBraceRegion cleaned with
    | some region => jsonLoads region
    | none => some (Jv.obj [])

/-! ## Python dynamic-semantics helpers used by the chains -/

/-- Python truthiness of a JSON value. -/
def pyTruthy : Jv → Bool
  | Jv.null => false
  | Jv.bool b => b
  | Jv.num m _ => m != 0
  | Jv.str s => !s.isEmpty
  | Jv.arr xs => !xs.isEmpty
  | Jv.obj d => !d.isEmpty

/-- Python `k in result` for a string key `k`: key test on dicts, membership
on lists, substring test on strings; a `TypeError` (modelled as `none`) on
numbers, booleans and `None`. -/
def pyContainsKey (result : Jv) (k : Str) : Option Bool :=
  match result with
  | Jv.obj d => some (lookupD d k).isSome
  | Jv.arr xs =>
    some (xs.any (fun x => match x with | Jv.str s => decide (s = k) | _ => false))
  | Jv.str s => some (containsSub k s)
  | _ => none

/-- Python `result[k] = v` for a string key: succeeds only on dicts, raising
a `TypeError` (modelled as `none`) otherwise. -/
def pySetItem (result : Jv) (k : Str) (v : Jv) : Option Jv :=
  match result with
  | Jv.obj d => some (Jv.obj (dictSet d k v))
  | _ => none

/-- Python `.get(k, default)` — an `AttributeError` (modelled as `none`) on
anything that is not a dict. -/
def pyGet (v : Jv) (k : Str) (default : Jv) : Option Jv :=
  match v with
  | Jv.obj d => some ((lookupD d k).getD default)
  | _ => none

/-- The `for k, v in defaults.items(): if k not in result: result[k] = v`
loop shared by `evaluate_answer` and `generate_summary`. -/
def applyDefaultsLoop : List (Str × Jv) → Jv → Option Jv
  | [], r => some r
  | (k, v) :: rest, r =>
    match pyContainsKey r k with
    | none => none
    | some true => applyDefaultsLoop rest r
    | some false =>
      match pySetItem r k v with
      | none => none
      | some r' => applyDefaultsLoop rest r'

/-! ## Answer evaluator (chains.py:263-296) -/

/-- The all-zero evaluation returned for empty answers (chains.py:266-274). -/
def zeroEval : List (Str × Jv) :=
  [(("relevance").data, Jv.num 0 0),
   (("depth").data, Jv.num 0 0),
   (("clarity").data, Jv.num 0 0),
   (("communication").data, Jv.num 0 0),
   (("problem_solving").data, Jv.num 0 0),
   (("practical_experience").data, Jv.num 0 0),
   (("short_summary").data, Jv.str ("No answer provided").data)]

/-- Neutral defaults backfilled into the evaluator's parsed output
(chains.py:286-291). -/
def evalDefaults : List (Str × Jv) :=
  [(("relevance").data, Jv.num 5 0),
   (("depth").data, Jv.num 5 0),
   (("clarity").data, Jv.num 5 0),
   (("communication").data, Jv.num 5 0),
   (("problem_solving").data, Jv.num 5 0),
   (("practical_experience").data, Jv.num 5 0),
   (("short_summary").data, Jv.str ("Unable to evaluate").data)]

/-- The six rubric dimension names. -/
def evalDimNames : List Str :=
  [("relevance").data, ("depth").data, ("clarity").data, ("communication").data,
   ("problem_solving").data, ("practical_experience").data]

/-- Embedding of `evaluate_answer` (chains.py:263-296).  The collaborator's
raw reply is the explicit `llmResponse` argument; the second component
counts how many times the collaborator was invoked.  A `none` first
component models an uncaught exception. -/
def evaluateAnswer (question answer llmResponse : Str) : Option Jv × Nat :=
  if strTrim answer = [] then (some (Jv.obj zeroEval), 0)
  else
    match cleanJsonResponse llmResponse with
    | none => (none, 1)
    | some result => (applyDefaultsLoop evalDefaults result, 1)

/-! ## Summary generator (chains.py:364-412) -/

/-- Integer division rounding half to even (`den > 0`): the rounding used
by IEEE binary arithmetic for mantissas, and the tie-free final decimal
step of `round(x, 1)` below. -/
def pyRoundHalfEven (num den : Int) : Int :=
  let f := num.fdiv den
  let r := num - den * f
  if 2 * r < den then f
  else if 2 * r > den then f + 1
  else if f % 2 = 0 then f else f + 1

/-- Helper for `bitLen`, structurally recursive on a fuel counter (fuel
`n + 1` always suffices, as halving reaches 0 within that many steps). -/
def bitLenAux : Nat → Nat → Nat
  | 0, _ => 0
  | fuel + 1, n => if n = 0 then 0 else bitLenAux fuel (n / 2) + 1

/-- Number of binary digits of a natural number. -/
def bitLen (n : Nat) : Nat := bitLenAux (n + 1) n

/-- Rounded mantissa of `na / den` at binary exponent `e`: round-to-nearest,
ties-to-even, of `na / (den * 2 ^ e)` for `e ≥ 0`, of `na * 2 ^ (-e) / den`
otherwise. -/
def mantissaAt (na den : Nat) (e : Int) : Int :=
  if 0 ≤ e then pyRoundHalfEven (na : Int) ((den : Int) * 2 ^ e.toNat)
  else pyRoundHalfEven ((na : Int) * 2 ^ (-e).toNat) (den : Int)

/-- Mantissa-exponent pair `(m, e)` with `2 ^ 52 ≤ m < 2 ^ 53` of the IEEE
double nearest to `na / den` (both non-zero): the candidate exponent from
the operands' bit lengths, corrected when rounding carries into an extra
bit. -/
def normMantissa (na den : Nat) : Int × Int :=
  let e1 : Int := (bitLen na : Int) - (bitLen den : Int) - 53
  let m1 := mantissaAt na den e1
  if m1 < 2 ^ 53 then (m1, e1)
  else
    let m2 := mantissaAt na den (e1 + 1)
    if m2 < 2 ^ 53 then (m2, e1 + 1) else (mantissaAt na den (e1 + 2), e1 + 2)

/-- The IEEE double nearest to the rational `num / den`, as `(m, e)`
denoting `m * 2 ^ e`.  Exponents are unbounded here, which coincides with
64-bit doubles for every magnitude the service can see (no overflow, no
subnormals). -/
def roundToDoubleRat (num : Int) (den : Nat) : Int × Int :=
  if num = 0 ∨ den = 0 then (0, 0)
  else
    let p := normMantissa num.natAbs den
    (if num < 0 then -p.1 else p.1, p.2)

/-- Python `round(time_taken_ms / 1000 / 60, 1)` in tenths of a minute,
under float semantics: each `/` rounds its exact quotient to the nearest
double, and `round(x, 1)` yields the multiple of 0.1 nearest to the exact
value of the double `x` (a tie is impossible: no double is an odd multiple
of 0.05). -/
def pyTimeTakenTenths (ms : Int) : Int :=
  let p1 := roundToDoubleRat ms 1000
  let p2 :=
    if 0 ≤ p1.2 then roundToDoubleRat (p1.1 * 2 ^ p1.2.toNat) 60
    else roundToDoubleRat p1.1 (60 * 2 ^ (-p1.2).toNat)
  if 0 ≤ p2.2 then p2.1 * 2 ^ p2.2.toNat * 10
  else pyRoundHalfEven (p2.1 * 10) ((2 : Int) ^ (-p2.2).toNat)

/-- Local elapsed-time computation `round(time_taken_ms / 1000 / 60, 1)`
(chains.py:390-391), as the decimal (in tenths of a minute) that the
float computation denotes. -/
def roundMsToMinutesOneDecimal (timeTakenMs : Int) : Jv :=
  Jv.num (pyTimeTakenTenths timeTakenMs) 1

/-- Defaults backfilled into the summary (chains.py:394-407). -/
def summaryDefaults : List (Str × Jv) :=
  [(("strengths").data, Jv.arr []),
   (("improvement_areas").data, Jv.arr []),
   (("skill_wise_scores").data, Jv.obj
      [(("communication").data, Jv.num 5 0),
       (("problem_solving").data, Jv.num 5 0),
       (("role_specific_knowledge").data, Jv.num 5 0),
       (("practical_experience").data, Jv.num 5 0),
       (("clarity").data, Jv.num 5 0),
       (("confidence").data, Jv.num 5 0)]),
   (("overall_score").data, Jv.num 5 0),
   (("time_taken_minutes").data, Jv.num 0 0),
   (("resume_match_percentage").data, Jv.num 50 0),
   (("final_recommendation").data, Jv.str ("Needs Improvement").data),
   (("expected_response_time").data, Jv.str ("Within 3-5 business days").data)]

/-- Embedding of `generate_summary` (chains.py:364-412).  `currentTime` is
the wall-clock reading `int(time.time() * 1000)` taken at the start of the
call; the collaborator's raw reply is `llmResponse`.  The parsed result has
`time_taken_minutes` overwritten with the locally computed elapsed time
before defaults are backfilled; `none` models an uncaught exception. -/
def generateSummary (resume jobDescription : Str) (history : List Turn)
    (startTime currentTime : Int) (llmResponse : Str) : Option Jv :=
  match cleanJsonResponse llmResponse with
  | none => none
  | some result =>
    match pySetItem result ("time_taken_minutes").data
        (roundMsToMinutesOneDecimal (currentTime - startTime)) with
    | none => none
    | some r => applyDefaultsLoop summaryDefaults r

/-! ## Recommendation normalisation (session_manager.py:237-247) -/

/-- Embedding of `_map_recommendation`. -/
def mapRecommendation (rec : Str) : Str :=
  let recLower := strTrim (strLower rec)
  if containsSub ("strong").data recLower then ("strong_hire").data
  else if containsSub ("moderate").data recLower
      || containsSub ("fit").data recLower then ("hire").data
  else if containsSub ("needs").data recLower
      || containsSub ("improvement").data recLower then ("maybe").data
  else ("maybe").data

/-! ## Configuration (config.py) and stop policy -/

/-- Default of `MAX_INTERVIEW_DURATION_MS` (config.py:21): `5 * 60 * 1000`. -/
def MAX_INTERVIEW_DURATION_MS : Int := 5 * 60 * 1000

/-- The time-based stop signal computed by `handle_answer`
(main.py:200-201): `elapsed_ms > max_duration_ms` with
`elapsed_ms = now - start_time_ms`. -/
def shouldForceStop (startTime now maxDurationMs : Int) : Bool :=
  now - startTime > maxDurationMs

/-! ## The answer endpoint (`handle_answer`, main.py:178-308) -/

/-- Python `str(...)` applied to a JSON value, as used by the f-string
appending the next question to the transcript.  Container and non-integral
numeric renderings are abbreviated: the service only ever interpolates
strings here, and no theorem below depends on the other branches. -/
def natDigitsAux : Nat → Nat → Str
  | 0, _ => []
  | fuel + 1, n =>
    if n < 10 then [Char.ofNat (48 + n)]
    else natDigitsAux fuel (n / 10) ++ [Char.ofNat (48 + n % 10)]

/-- Decimal rendering of a natural number. -/
def natStr (n : Nat) : Str := natDigitsAux (n + 1) n

/-- Decimal rendering of an integer. -/
def intStr (i : Int) : Str := if i < 0 then '-' :: natStr (-i).toNat else natStr i.toNat

/-- String interpolation of a JSON value (see `natDigitsAux` above). -/
def pyStr : Jv → Str
  | Jv.str s => s
  | Jv.bool true => ("True").data
  | Jv.bool false => ("False").data
  | Jv.null => ("None").data
  | Jv.num m e => if e = 0 then intStr m else intStr m ++ ("e-").data ++ natStr e
  | Jv.arr _ => ("[...]").data
  | Jv.obj _ => ("\x7b...\x7d").data

/-- The fields of an `interview_sessions` row that `handle_answer` reads.
The `started_at` ISO timestamp is modelled as the millisecond reading it
denotes. -/
structure SessionRow where
  status : Str
  full_transcript : Str
  started_at_ms : Option Int
  template_id : Option Str

/-- HTTP-level failures raised by `handle_answer`: 404 for a missing
session, 500 for any uncaught exception. -/
inductive ApiErr where
  | notFound
  | internal

/-- The JSON body returned by `handle_answer`. -/
structure AnswerResp where
  question : Option Jv
  feedback : Option Jv
  status : Str
  summary : Option Jv

/-- Persistence-store writes performed during the turn. -/
structure StoreEffects where
  storedAnswer : Option (Str × Str)
  newTranscript : Str
  completedWith : Option Jv

/-- Embedding of `handle_answer` (main.py:178-308).  Wall clock, collaborator
replies, the freshly created question id and the session-store reads are
explicit arguments; store writes are reported in `StoreEffects`.  Note that
the handler checks only that the session exists — it never inspects
`status`. -/
def handleAnswer (sessionData : Option SessionRow) (previousAnswersCount : Nat)
    (nowMs : Int) (answer : Str)
    (interviewerResp evaluatorResp summaryResp : Str) (newQid : Str) :
    Except ApiErr (AnswerResp × StoreEffects) :=
  match sessionData with
  | none => Except.error ApiErr.notFound
  | some s =>
    let startTimeMs := s.started_at_ms.getD nowMs
    let elapsedMs := nowMs - startTimeMs
    let timeExpired : Bool := elapsedMs > MAX_INTERVIEW_DURATION_MS
    let _phase : Str :=
      if previousAnswersCount < 1 then ("introduction").data else ("technical").data
    let transcript := s.full_transcript
    let resumeSummary := extractResumeContext transcript
    let jobDescription := extractJobDescription transcript
    let _history := buildHistoryFromTranscript transcript
    let stopInterview := timeExpired
    match cleanJsonResponse interviewerResp with
    | none => Except.error ApiErr.internal
    | some aiResponse =>
      match pyGet aiResponse ("question").data (Jv.str []),
            pyGet aiResponse ("feedback").data (Jv.str []),
            pyGet aiResponse ("stop_interview").data (Jv.bool false) with
      | some aiQuestion, some aiFeedback, some aiStopV =>
        let aiStop := pyTruthy aiStopV
        let lastQuestion : Str :=
          if transcript = [] then []
          else
            (((strSplitOn '\n' (strTrim transcript)).reverse.find?
                (fun line => aiTagBare.isPrefixOf line)).map
              (fun line => strReplaceAll aiTag [] line)).getD []
        let _lastQuestionId := extractLastQuestionId transcript
        match (evaluateAnswer lastQuestion answer evaluatorResp).1 with
        | none => Except.error ApiErr.internal
        | some _evaluation =>
          let stored := some (lastQuestion, answer)
          let t1 := transcript ++ candTag ++ answer ++ ['\n']
          let updatedTranscript :=
            if pyTruthy aiQuestion && !(aiStop || stopInterview) then
              t1 ++ qidTag ++ newQid ++ '\n' :: (aiTag ++ pyStr aiQuestion ++ ['\n'])
            else t1
          if aiStop || stopInterview then
            let tForSummary := transcript ++ candTag ++ answer ++ ['\n']
            let fullHistory := buildHistoryFromTranscript tForSummary
            match generateSummary resumeSummary jobDescription fullHistory
                startTimeMs nowMs summaryResp with
            | none => Except.error ApiErr.internal
            | some summary =>
              Except.ok
                ({question := none, feedback := none,
                  status := ("completed").data, summary := some summary},
                 {storedAnswer := stored, newTranscript := updatedTranscript,
                  completedWith := some summary})
          else
            Except.ok
              ({question := some aiQuestion, feedback := some aiFeedback,
                status := ("running").data, summary := none},
               {storedAnswer := stored, newTranscript := updatedTranscript,
                completedWith := none})
      | _, _, _ => Except.error ApiErr.internal

/-! ## Auxiliary definitions used by the statements and proofs -/

/-- Lines joined by single newlines (no trailing newline): the shape of a
transcript after `strip`. -/
def interNL : List Str → Str
  | [] => []
  | [l] => l
  | l :: ls => l ++ '\n' :: interNL ls

/-- Functional description of the defaults loop on a dict: append each
default whose key is absent, in order. -/
def addMissing : List (Str × Jv) → List (Str × Jv) → List (Str × Jv)
  | [], d => d
  | (k, v) :: rest, d =>
    addMissing rest (if (lookupD d k).isSome then d else dictSet d k v)

/-- Whether an optional JSON value is an integer in `[0, 10]` (the decimal
`m / 10 ^ e` is integral exactly when `10 ^ e` divides `m`). -/
def jvIntInRange : Option Jv → Bool
  | some (Jv.num m e) => decide (m % (10 : Int) ^ e = 0 ∧ 0 ≤ m ∧ m ≤ 10 * 10 ^ e)
  | _ => false

/-- Whether all six rubric dimensions of an evaluation are integers in
`[0, 10]`. -/
def evalDimsIntInRange (v : Jv) : Bool :=
  match v with
  | Jv.obj d => evalDimNames.all (fun k => jvIntInRange (lookupD d k))
  | _ => false

/-! ## Helper lemmas: dictionaries and the defaults loop -/

theorem lookupD_dictSet_self (d : List (Str × Jv)) (k : Str) (v : Jv) :
    lookupD (dictSet d k v) k = some v := by
  induction d with
  | nil => simp [dictSet, lookupD]
  | cons kv rest ih =>
    obtain ⟨k', v'⟩ := kv
    by_cases h : k' = k <;> simp [dictSet, lookupD, h, ih]

theorem lookupD_dictSet_ne (d : List (Str × Jv)) (k k' : Str) (v' : Jv)
    (h : k' ≠ k) : lookupD (dictSet d k' v') k = lookupD d k := by
  induction d with
  | nil => simp [dictSet, lookupD, h]
  | cons kv rest ih =>
    obtain ⟨k0, v0⟩ := kv
    by_cases h0 : k0 = k'
    · subst h0
      simp [dictSet, lookupD, h]
    · by_cases h1 : k0 = k <;> simp [dictSet, lookupD, h0, h1, Ne.symm h, ih]

theorem applyDefaultsLoop_obj (ds : List (Str × Jv)) (d : List (Str × Jv)) :
    applyDefaultsLoop ds (Jv.obj d) = some (Jv.obj (addMissing ds d)) := by
  induction ds generalizing d with
  | nil => simp [applyDefaultsLoop, addMissing]
  | cons kv rest ih =>
    obtain ⟨k, v⟩ := kv
    by_cases h : (lookupD d k).isSome <;>
      simp [applyDefaultsLoop, addMissing, pyContainsKey, pySetItem, h, ih]

theorem lookupD_addMissing_of_some (ds : List (Str × Jv)) (d : List (Str × Jv))
    (k : Str) (v : Jv) (h : lookupD d k = some v) :
    lookupD (addMissing ds d) k = some v := by
  induction ds generalizing d with
  | nil => simpa [addMissing] using h
  | cons kv rest ih =>
    obtain ⟨k', v'⟩ := kv
    by_cases hk : (lookupD d k').isSome
    · simpa [addMissing, hk] using ih d h
    · have hne : k' ≠ k := by
        intro he
        subst he
        rw [h] at hk
        simp at hk
      have h' : lookupD (dictSet d k' v') k = some v := by
        rw [lookupD_dictSet_ne d k k' v' hne]
        exact h
      simpa [addMissing, hk] using ih _ h'

theorem lookupD_addMissing_of_none (ds : List (Str × Jv)) (d : List (Str × Jv))
    (k : Str) (v : Jv) (hd : lookupD d k = none) (hds : lookupD ds k = some v) :
    lookupD (addMissing ds d) k = some v := by
  induction ds generalizing d with
  | nil => simp [lookupD] at hds
  | cons kv rest ih =>
    obtain ⟨k', v'⟩ := kv
    by_cases hk : k' = k
    · subst hk
      have hv : v' = v := by simpa [lookupD] using hds
      subst hv
      have hnone : (lookupD d k').isSome = false := by simp [hd]
      have hset : lookupD (dictSet d k' v') k' = some v' := lookupD_dictSet_self d k' v'
      simpa [addMissing, hnone] using lookupD_addMissing_of_some rest _ k' v' hset
    · have hds' : lookupD rest k = some v := by simpa [lookupD, hk] using hds
      by_cases hp : (lookupD d k').isSome
      · simpa [addMissing, hp] using ih d hd hds'
      · have hd' : lookupD (dictSet d k' v') k = none := by
          rw [lookupD_dictSet_ne d k k' v' hk]
          exact hd
        simpa [addMissing, hp] using ih _ hd' hds'

/-! ## Helper lemmas: substring search -/

theorem containsSub_infix_iff (p s : Str) : containsSub p s = true ↔ p <:+: s := by
  induction s with
  | nil =>
    simp [containsSub, List.isEmpty_iff]
  | cons c rest ih =>
    simp [containsSub, List.infix_cons_iff, ih, List.isPrefixOf_iff_prefix]

theorem containsSub_reverse (p z : Str) :
    containsSub p z.reverse = containsSub (p.reverse) z := by
  rcases h1 : containsSub p z.reverse with _ | _
  · rcases h2 : containsSub p.reverse z with _ | _
    · rfl
    · exfalso
      have hinf : p.reverse <:+: z := (containsSub_infix_iff _ _).mp h2
      have : p <:+: z.reverse := by
        have := (@List.reverse_infix Char p.reverse z).mpr hinf
        simpa using this
      rw [(containsSub_infix_iff _ _).mpr this] at h1
      cases h1
  · have hinf : p <:+: z.reverse := (containsSub_infix_iff _ _).mp h1
    have : p.reverse <:+: z := by
      have := (@List.reverse_infix Char p z.reverse).mpr hinf
      simpa using this
    rw [(containsSub_infix_iff _ _).mpr this]

theorem containsSub_dropWhile_ws (p0 : Char) (ps : Str) (h : isWS p0 = false)
    (s : Str) :
    containsSub (p0 :: ps) (s.dropWhile isWS) = containsSub (p0 :: ps) s := by
  induction s with
  | nil => rfl
  | cons c rest ih =>
    by_cases hc : isWS c
    · have hpre : (p0 :: ps).isPrefixOf (c :: rest) = false := by
        have hne : p0 ≠ c := by
          intro he
          rw [he, hc] at h
          cases h
        simp [List.isPrefixOf, hne]
      simp [List.dropWhile_cons, hc, containsSub, hpre, ih]
    · simp [List.dropWhile_cons, hc]

theorem containsSub_strTrim (p : Str) (hp : p ≠ [])
    (h1 : isWS p.headI = false) (h2 : isWS p.reverse.headI = false) (s : Str) :
    containsSub p (strTrim s) = containsSub p s := by
  obtain ⟨p0, ps, hps⟩ := List.exists_cons_of_ne_nil hp
  subst hps
  obtain ⟨q0, qs, hq⟩ := List.exists_cons_of_ne_nil (by simp : (p0 :: ps).reverse ≠ [])
  have hws0 : isWS p0 = false := by simpa using h1
  have hwsq : isWS q0 = false := by rw [hq] at h2; simpa using h2
  calc containsSub (p0 :: ps) (strTrim s)
      = containsSub (p0 :: ps) (((s.dropWhile isWS).reverse.dropWhile isWS).reverse) := rfl
    _ = containsSub ((p0 :: ps).reverse) ((s.dropWhile isWS).reverse.dropWhile isWS) :=
        containsSub_reverse _ _
    _ = containsSub ((p0 :: ps).reverse) ((s.dropWhile isWS).reverse) := by
        rw [hq]
        exact containsSub_dropWhile_ws q0 qs hwsq _
    _ = containsSub ((p0 :: ps).reverse.reverse) (s.dropWhile isWS) := by
        rw [← containsSub_reverse]
        simp
    _ = containsSub (p0 :: ps) (s.dropWhile isWS) := by simp
    _ = containsSub (p0 :: ps) s := containsSub_dropWhile_ws p0 ps hws0 s

/-! ## Claim theorems -/

/-- C3 (confirmed): for every question string and every collaborator reply,
`evaluate_answer` applied to an empty or whitespace-only answer returns the
all-zero evaluation — six dimensions `0` and summary `"No answer provided"`
— without invoking the language-model collaborator (invocation count 0). -/
theorem c3_empty_answer_short_circuit (question answer llmResponse : Str)
    (h : strTrim answer = []) :
    evaluateAnswer question answer llmResponse = (some (Jv.obj zeroEval), 0)
    ∧ (∀ k, k ∈ evalDimNames → lookupD zeroEval k = some (Jv.num 0 0))
    ∧ lookupD zeroEval ("short_summary").data
        = some (Jv.str ("No answer provided").data) := by
  refine ⟨by simp [evaluateAnswer, h], ?_, rfl⟩
  intro k hk
  fin_cases hk <;> rfl

/-- Witness for C3 at the whitespace-only answer `"   "`. -/
theorem c3_empty_answer_short_circuit_witness :
    strTrim ("   ").data = []
    ∧ evaluateAnswer ("Tell me about yourself").data ("   ").data ("ignored").data
        = (some (Jv.obj zeroEval), 0) :=
  ⟨by decide,
   (c3_empty_answer_short_circuit ("Tell me about yourself").data ("   ").data
      ("ignored").data (by decide)).1⟩

/-- C5 (code_bug): the response parser is not total.  On the input
`"oops {bad} end"` the outer structured parse fails, the brace-delimited
fallback region `"{bad}"` is found, and the second, unguarded `json.loads`
fails as well — so `_clean_json_response` raises a `JSONDecodeError`
(modelled as `none`) instead of returning the empty structure. -/
theorem c5_clean_json_response_raises :
    jsonLoads ("oops \x7bbad\x7d end").data = none
    ∧ findBraceRegion ("oops \x7bbad\x7d end").data = some ("\x7bbad\x7d").data
    ∧ jsonLoads ("\x7bbad\x7d").data = none
    ∧ cleanJsonResponse ("oops \x7bbad\x7d end").data = none :=
  ⟨rfl, rfl, rfl, rfl⟩

/-- C6 (code_bug): `handle_answer` rejects a missing session with a
not-found error, but an answer submitted to a session whose status is
`"completed"` is processed normally: the answer is evaluated and stored,
the transcript is extended, and a fresh question is returned — there is no
invalid-state rejection. -/
theorem c6_completed_session_processed :
    handleAnswer none 1 1000 ("my answer").data
        ("\x7b\"question\": \"Next?\", \"feedback\": \"\", \"stop_interview\": false\x7d").data
        ("\x7b\"relevance\": 7\x7d").data ("x").data ("q9").data
      = Except.error ApiErr.notFound
    ∧ handleAnswer
        (some ⟨("completed").data, ("[AI] Q1\n").data, some 0, none⟩) 1 1000
        ("my answer").data
        ("\x7b\"question\": \"Next?\", \"feedback\": \"\", \"stop_interview\": false\x7d").data
        ("\x7b\"relevance\": 7\x7d").data ("x").data ("q9").data
      = Except.ok
          (⟨some (Jv.str ("Next?").data), some (Jv.str []), ("running").data, none⟩,
           ⟨some (("Q1").data, ("my answer").data),
            ("[AI] Q1\n[CANDIDATE] my answer\n[QID] q9\n[AI] Next?\n").data, none⟩) :=
  ⟨rfl, rfl⟩

/-- C4 counterexample: not every collaborator response yields a scorecard.
On the reply `"5"` the parse succeeds with a non-dict value and the
`result["time_taken_minutes"] = ...` assignment raises a `TypeError`
(modelled as `none`), so `generate_summary` returns no scorecard at all. -/
theorem c4_counterexample_nondict_response :
    jsonLoads ("5").data = some (Jv.num 5 0)
    ∧ generateSummary [] [] [] 0 60000 ("5").data = none :=
  ⟨rfl, rfl⟩

/-- C4 (corrected): whenever the collaborator reply parses to a dict —
including via the empty-structure fallback, and whatever value (or absence
of a value) that dict carries for `time_taken_minutes` — `generate_summary`
returns a scorecard whose `time_taken_minutes` equals the locally computed
`round((now - startTime) / 1000 / 60, 1)` under Python float semantics
(each division rounds to the nearest IEEE double, and `round` picks the
nearest multiple of 0.1 to that double's exact value), overwriting the
collaborator's field.  Stated for elapsed times up to `2 ^ 62` ms, where
the unbounded-exponent double model coincides with 64-bit doubles. -/
theorem c4_time_taken_overridden (resume jobDescription : Str)
    (history : List Turn) (startTime currentTime : Int) (llmResponse : Str)
    (d : List (Str × Jv))
    (hrange : (currentTime - startTime).natAbs ≤ 2 ^ 62)
    (h : cleanJsonResponse llmResponse = some (Jv.obj d)) :
    ∃ r, generateSummary resume jobDescription history startTime currentTime llmResponse
          = some (Jv.obj r)
      ∧ lookupD r ("time_taken_minutes").data
          = some (Jv.num (pyTimeTakenTenths (currentTime - startTime)) 1) := by
  refine ⟨addMissing summaryDefaults
      (dictSet d ("time_taken_minutes").data
        (roundMsToMinutesOneDecimal (currentTime - startTime))), ?_, ?_⟩
  · simp only [generateSummary, h, pySetItem, applyDefaultsLoop_obj]
  · exact lookupD_addMissing_of_some _ _ _ _ (lookupD_dictSet_self _ _ _)

/-- Witness for C4: the collaborator claims 999 minutes; locally, 123000 ms
is 2.05 minutes, the double nearest 2.05 lies below it, so `round(·, 1)`
gives 2.0, which wins. -/
theorem c4_time_taken_overridden_witness :
    cleanJsonResponse ("\x7b\"time_taken_minutes\": 999\x7d").data
      = some (Jv.obj [(("time_taken_minutes").data, Jv.num 999 0)])
    ∧ ∃ r, generateSummary [] [] [] 0 123000 ("\x7b\"time_taken_minutes\": 999\x7d").data
          = some (Jv.obj r)
        ∧ lookupD r ("time_taken_minutes").data = some (Jv.num 20 1) := by
  refine ⟨rfl, ?_⟩
  obtain ⟨r, h1, h2⟩ :=
    c4_time_taken_overridden [] [] [] 0 123000
      ("\x7b\"time_taken_minutes\": 999\x7d").data
      [(("time_taken_minutes").data, Jv.num 999 0)] (by decide) rfl
  refine ⟨r, h1, ?_⟩
  rw [h2]
  rfl

/-- C8 (confirmed): for every non-empty answer and every collaborator reply
whose parsed structure is a dict missing the `depth` field, the evaluation
has `depth = 5`; in general every field present in the parsed dict is
preserved verbatim and every missing default (the five other dimensions and
the summary) is backfilled, with no error. -/
theorem c8_missing_dimension_backfilled (question answer llmResponse : Str)
    (d : List (Str × Jv)) (hne : ¬ strTrim answer = [])
    (hp : cleanJsonResponse llmResponse = some (Jv.obj d))
    (hdepth : lookupD d ("depth").data = none) :
    ∃ d', evaluateAnswer question answer llmResponse = (some (Jv.obj d'), 1)
      ∧ lookupD d' ("depth").data = some (Jv.num 5 0)
      ∧ (∀ k v, lookupD d k = some v → lookupD d' k = some v)
      ∧ (∀ k v, lookupD evalDefaults k = some v → lookupD d k = none →
          lookupD d' k = some v) := by
  refine ⟨addMissing evalDefaults d, ?_, ?_, ?_, ?_⟩
  · simp only [evaluateAnswer, if_neg hne, hp, applyDefaultsLoop_obj]
  · exact lookupD_addMissing_of_none _ _ _ _ hdepth rfl
  · exact fun k v hv => lookupD_addMissing_of_some _ _ _ _ hv
  · exact fun k v hv hnone => lookupD_addMissing_of_none _ _ _ _ hnone hv

/-- Witness for C8: reply `{"relevance": 9}` — `depth` is backfilled with 5
while `relevance` stays 9. -/
theorem c8_missing_dimension_backfilled_witness :
    ¬ strTrim ("hi").data = []
    ∧ cleanJsonResponse ("\x7b\"relevance\": 9\x7d").data
        = some (Jv.obj [(("relevance").data, Jv.num 9 0)])
    ∧ lookupD [(("relevance").data, Jv.num 9 0)] ("depth").data = none
    ∧ ∃ d', evaluateAnswer ("q").data ("hi").data ("\x7b\"relevance\": 9\x7d").data
          = (some (Jv.obj d'), 1)
        ∧ lookupD d' ("depth").data = some (Jv.num 5 0)
        ∧ (∀ k v, lookupD [(("relevance").data, Jv.num 9 0)] k = some v →
            lookupD d' k = some v)
        ∧ (∀ k v, lookupD evalDefaults k = some v →
            lookupD [(("relevance").data, Jv.num 9 0)] k = none →
            lookupD d' k = some v) :=
  ⟨by decide, rfl, rfl,
   c8_missing_dimension_backfilled ("q").data ("hi").data
     ("\x7b\"relevance\": 9\x7d").data [(("relevance").data, Jv.num 9 0)]
     (by decide) rfl rfl⟩

/-- C10 counterexample: the collaborator reply `{"relevance": 11}` is kept
verbatim, so the produced evaluation has a dimension outside `[0, 10]` —
the claimed invariant fails. -/
theorem c10_counterexample_out_of_range :
    (evaluateAnswer ("q").data ("ok").data ("\x7b\"relevance\": 11\x7d").data).1
      = some (Jv.obj
          [(("relevance").data, Jv.num 11 0),
           (("depth").data, Jv.num 5 0),
           (("clarity").data, Jv.num 5 0),
           (("communication").data, Jv.num 5 0),
           (("problem_solving").data, Jv.num 5 0),
           (("practical_experience").data, Jv.num 5 0),
           (("short_summary").data, Jv.str ("Unable to evaluate").data)])
    ∧ ((evaluateAnswer ("q").data ("ok").data
          ("\x7b\"relevance\": 11\x7d").data).1).map evalDimsIntInRange
        = some false :=
  ⟨rfl, rfl⟩

/-- C10 (corrected): whenever the parsed collaborator dict only carries
integer values in `[0, 10]` for the dimensions it does provide, every
evaluation produced from a non-empty answer has all six dimensions as
integers in `[0, 10]` (absent ones become the neutral 5). -/
theorem c10_dimensions_in_range (question answer llmResponse : Str)
    (d : List (Str × Jv)) (hne : ¬ strTrim answer = [])
    (hp : cleanJsonResponse llmResponse = some (Jv.obj d))
    (hok : ∀ k, k ∈ evalDimNames → ∀ v, lookupD d k = some v →
        jvIntInRange (some v) = true) :
    ∃ d', evaluateAnswer question answer llmResponse = (some (Jv.obj d'), 1)
      ∧ (∀ k, k ∈ evalDimNames → jvIntInRange (lookupD d' k) = true)
      ∧ evalDimsIntInRange (Jv.obj d') = true := by
  have hall : ∀ k ∈ evalDimNames,
      jvIntInRange (lookupD (addMissing evalDefaults d) k) = true := by
    intro k hk
    cases hv : lookupD d k with
    | none =>
      have hdef : lookupD evalDefaults k = some (Jv.num 5 0) := by
        fin_cases hk <;> rfl
      rw [lookupD_addMissing_of_none _ _ _ _ hv hdef]
      rfl
    | some v =>
      rw [lookupD_addMissing_of_some _ _ _ _ hv]
      exact hok k hk v hv
  refine ⟨addMissing evalDefaults d, ?_, hall, ?_⟩
  · simp only [evaluateAnswer, if_neg hne, hp, applyDefaultsLoop_obj]
  · simp only [evalDimsIntInRange, List.all_eq_true]
    exact hall

/-- Witness for C10 at the empty-dict reply `{}`: all six dimensions are
backfilled with the in-range neutral 5. -/
theorem c10_dimensions_in_range_witness :
    ¬ strTrim ("hi").data = []
    ∧ cleanJsonResponse ("\x7b\x7d").data = some (Jv.obj [])
    ∧ ∃ d', evaluateAnswer ("q").data ("hi").data ("\x7b\x7d").data
          = (some (Jv.obj d'), 1)
        ∧ (∀ k, k ∈ evalDimNames → jvIntInRange (lookupD d' k) = true)
        ∧ evalDimsIntInRange (Jv.obj d') = true :=
  ⟨by decide, rfl,
   c10_dimensions_in_range ("q").data ("hi").data ("\x7b\x7d").data []
     (by decide) rfl (fun _ _ v hv => Option.noConfusion hv)⟩

/-- C9 (confirmed): recommendation normalisation is total and keyed on
case-insensitive substrings: `"strong"` anywhere maps to `strong_hire`;
otherwise `"moderate"` or `"fit"` maps to `hire`; otherwise — including
`"needs"`/`"improvement"` and any unrecognised text — the result is
`maybe`. -/
theorem c9_recommendation_keyword_tiers (rec : Str) :
    (containsSub ("strong").data (strLower rec) = true →
      mapRecommendation rec = ("strong_hire").data)
    ∧ (containsSub ("strong").data (strLower rec) = false →
        (containsSub ("moderate").data (strLower rec) = true ∨
          containsSub ("fit").data (strLower rec) = true) →
        mapRecommendation rec = ("hire").data)
    ∧ (containsSub ("strong").data (strLower rec) = false →
        containsSub ("moderate").data (strLower rec) = false →
        containsSub ("fit").data (strLower rec) = false →
        mapRecommendation rec = ("maybe").data) := by
  have hs := containsSub_strTrim ("strong").data (by decide) (by decide) (by decide)
    (strLower rec)
  have hm := containsSub_strTrim ("moderate").data (by decide) (by decide) (by decide)
    (strLower rec)
  have hf := containsSub_strTrim ("fit").data (by decide) (by decide) (by decide)
    (strLower rec)
  refine ⟨fun h => ?_, fun h1 h2 => ?_, fun h1 h2 h3 => ?_⟩
  · simp [mapRecommendation, hs, h]
  · rcases h2 with h2 | h2 <;> simp [mapRecommendation, hs, hm, hf, h1, h2]
  · simp [mapRecommendation, hs, hm, hf, h1, h2, h3]

/-- Witness for C9 at `"Strong Fit"` (capitalised keyword, highest tier). -/
theorem c9_recommendation_keyword_tiers_witness :
    containsSub ("strong").data (strLower ("Strong Fit").data) = true
    ∧ mapRecommendation ("Strong Fit").data = ("strong_hire").data :=
  ⟨by decide, (c9_recommendation_keyword_tiers ("Strong Fit").data).1 (by decide)⟩

/-! ## Helper lemmas: line classification and counting (C2) -/

theorem not_isPrefixOf_of_incomparable (p q l : Str) (hq : q.isPrefixOf l = true)
    (h1 : ¬ p <+: q) (h2 : ¬ q <+: p) : p.isPrefixOf l = false := by
  cases hp : p.isPrefixOf l with
  | false => rfl
  | true =>
    rcases List.prefix_or_prefix_of_prefix (List.isPrefixOf_iff_prefix.mp hp)
        (List.isPrefixOf_iff_prefix.mp hq) with hh | hh
    · exact absurd hh h1
    · exact absurd hh h2

theorem ai_prefix_not_cand (l : Str) (h : aiTag.isPrefixOf l = true) :
    candTag.isPrefixOf l = false :=
  not_isPrefixOf_of_incomparable candTag aiTag l h (by decide) (by decide)

theorem foldl_classify_eq_filterMap (ls : List Str) (acc : List Turn) :
    ls.foldl (fun history line =>
        match classifyLine line with
        | some t => history ++ [t]
        | none => history) acc
      = acc ++ ls.filterMap classifyLine := by
  induction ls generalizing acc with
  | nil => simp
  | cons l ls ih =>
    cases h : classifyLine l <;>
      simp [List.foldl_cons, List.filterMap_cons, h, ih]

theorem buildHistory_eq_filterMap (t : Str) :
    buildHistoryFromTranscript t
      = (strSplitOn '\n' (strTrim t)).filterMap classifyLine := by
  by_cases h : t = []
  · subst h
    rfl
  · simp only [buildHistoryFromTranscript, if_neg h]
    rw [foldl_classify_eq_filterMap]
    simp

theorem filterMap_classify_counts (ls : List Str) :
    ((ls.filterMap classifyLine).countP
        (fun tr => decide (tr.type = TurnType.question))
      = ls.countP (fun l => aiTag.isPrefixOf l))
    ∧ ((ls.filterMap classifyLine).countP
        (fun tr => decide (tr.type = TurnType.answer))
      = ls.countP (fun l => candTag.isPrefixOf l)) := by
  induction ls with
  | nil => exact ⟨rfl, rfl⟩
  | cons l ls ih =>
    cases hai : aiTag.isPrefixOf l with
    | true =>
      have hcand : candTag.isPrefixOf l = false := ai_prefix_not_cand l hai
      constructor <;>
        simp [List.filterMap_cons, classifyLine, hai, hcand, List.countP_cons,
          ih.1, ih.2]
    | false =>
      cases hcand : candTag.isPrefixOf l with
      | true =>
        constructor <;>
          simp [List.filterMap_cons, classifyLine, hai, hcand, List.countP_cons,
            ih.1, ih.2]
      | false =>
        constructor <;>
          simp [List.filterMap_cons, classifyLine, hai, hcand, List.countP_cons,
            ih.1, ih.2]

/-- C2 counterexample: the content is not the line with the leading tag
stripped — Python's `replace` also removes later occurrences of the tag
inside the line, so `"[AI] a [AI] b"` reconstructs with content `"a b"`,
not `"a [AI] b"`. -/
theorem c2_counterexample_tag_removed_everywhere :
    buildHistoryFromTranscript ("[AI] a [AI] b\n").data
      = [⟨TurnType.question, ("a b").data⟩]
    ∧ [Turn.mk TurnType.question (("a b").data)]
        ≠ [Turn.mk TurnType.question (("a [AI] b").data)] :=
  ⟨by decide, by decide⟩

/-- C2 (corrected): history reconstruction scans the (stripped, split)
transcript lines in order, emitting one question turn per line starting
with the AI tag and one answer turn per line starting with the CANDIDATE
tag — content being the line with every occurrence of the tag removed
(which equals stripping the leading tag whenever the tag does not reappear
inside the line) — and ignoring all other lines; consequently a transcript
with N AI lines and M CANDIDATE lines yields exactly N question turns and
M answer turns in the original interleaved order, and an empty transcript
yields an empty history and no last question id. -/
theorem c2_history_reconstruction (t : Str) :
    buildHistoryFromTranscript t
        = (strSplitOn '\n' (strTrim t)).filterMap classifyLine
    ∧ (buildHistoryFromTranscript t).countP
          (fun tr => decide (tr.type = TurnType.question))
        = (strSplitOn '\n' (strTrim t)).countP (fun l => aiTag.isPrefixOf l)
    ∧ (buildHistoryFromTranscript t).countP
          (fun tr => decide (tr.type = TurnType.answer))
        = (strSplitOn '\n' (strTrim t)).countP (fun l => candTag.isPrefixOf l)
    ∧ (t = [] → buildHistoryFromTranscript t = [] ∧ extractLastQuestionId t = none) := by
  refine ⟨buildHistory_eq_filterMap t, ?_, ?_, ?_⟩
  · rw [buildHistory_eq_filterMap t]
    exact (filterMap_classify_counts _).1
  · rw [buildHistory_eq_filterMap t]
    exact (filterMap_classify_counts _).2
  · intro h
    subst h
    exact ⟨rfl, rfl⟩

/-- Witness for C2 at a two-line transcript and at the empty transcript. -/
theorem c2_history_reconstruction_witness :
    buildHistoryFromTranscript ("[AI] Tell me about yourself\n[CANDIDATE] I am an engineer\n").data
        = (strSplitOn '\n'
            (strTrim ("[AI] Tell me about yourself\n[CANDIDATE] I am an engineer\n").data)).filterMap
            classifyLine
    ∧ (([] : Str) = [] → buildHistoryFromTranscript [] = [] ∧ extractLastQuestionId [] = none) :=
  ⟨(c2_history_reconstruction _).1,
   fun _ => (c2_history_reconstruction []).2.2.2 rfl⟩

/-- C7 (confirmed): the time-based stop signal is true exactly when the
elapsed wall-clock time strictly exceeds the ceiling; the configured
default ceiling is 300000 ms; elapsed 301000 ms against 300000 ms forces a
stop; and a successful `handle_answer` turn terminates the session with a
final scorecard exactly when the driver's content-driven stop signal or
the time-based signal is set (the two are ORed). -/
theorem c7_force_stop_policy :
    (∀ startTime now maxDurationMs : Int,
      shouldForceStop startTime now maxDurationMs = true ↔
        now - startTime > maxDurationMs)
    ∧ MAX_INTERVIEW_DURATION_MS = 300000
    ∧ shouldForceStop 0 301000 300000 = true
    ∧ (∀ (s : SessionRow) (count : Nat) (now : Int)
        (answer iresp eresp sresp qid : Str) (start : Int)
        (aiR : List (Str × Jv)) (resp : AnswerResp) (eff : StoreEffects),
        s.started_at_ms = some start →
        cleanJsonResponse iresp = some (Jv.obj aiR) →
        handleAnswer (some s) count now answer iresp eresp sresp qid
          = Except.ok (resp, eff) →
        ((resp.status = ("completed").data ∧ resp.summary.isSome
            ∧ eff.completedWith.isSome)
          ↔ (pyTruthy ((lookupD aiR ("stop_interview").data).getD (Jv.bool false)) = true
              ∨ shouldForceStop start now MAX_INTERVIEW_DURATION_MS = true))) := by
  refine ⟨fun a b c => by simp [shouldForceStop], by decide, by decide, ?_⟩
  intro s count now answer iresp eresp sresp qid start aiR resp eff hstart hclean hok
  unfold handleAnswer at hok
  rw [hclean] at hok
  simp only [hstart, pyGet, Option.getD_some] at hok
  split at hok
  · simp at hok
  · generalize hgen :
      (pyTruthy ((lookupD aiR ("stop_interview").data).getD (Jv.bool false))
        || decide (now - start > MAX_INTERVIEW_DURATION_MS)) = b at hok
    have hrhs : (pyTruthy ((lookupD aiR ("stop_interview").data).getD (Jv.bool false)) = true
        ∨ shouldForceStop start now MAX_INTERVIEW_DURATION_MS = true) ↔ b = true := by
      rw [show shouldForceStop start now MAX_INTERVIEW_DURATION_MS
          = decide (now - start > MAX_INTERVIEW_DURATION_MS) from rfl,
        ← Bool.or_eq_true, hgen]
    rw [hrhs]
    cases b with
    | false =>
      rw [if_neg (by simp)] at hok
      injection hok with hpair
      injection hpair with hresp heff
      subst hresp heff
      simp
    | true =>
      rw [if_pos rfl] at hok
      split at hok
      · simp at hok
      · injection hok with hpair
        injection hpair with hresp heff
        subst hresp heff
        simp

/-- Witness for C7: a concrete running turn (1000 ms elapsed, driver stop
signal false) does not terminate the session. -/
theorem c7_force_stop_policy_witness :
    handleAnswer (some ⟨("started").data, ("[AI] Hi\n").data, some 0, none⟩) 1 1000
        ("ok").data
        ("\x7b\"question\": \"Next?\", \"feedback\": \"f\", \"stop_interview\": false\x7d").data
        ("\x7b\x7d").data ("x").data ("q2").data
      = Except.ok
          (⟨some (Jv.str ("Next?").data), some (Jv.str ("f").data), ("running").data, none⟩,
           ⟨some (("Hi").data, ("ok").data),
            ("[AI] Hi\n[CANDIDATE] ok\n[QID] q2\n[AI] Next?\n").data, none⟩)
    ∧ (((⟨some (Jv.str ("Next?").data), some (Jv.str ("f").data), ("running").data,
            none⟩ : AnswerResp).status = ("completed").data
        ∧ (⟨some (Jv.str ("Next?").data), some (Jv.str ("f").data), ("running").data,
            none⟩ : AnswerResp).summary.isSome
        ∧ (⟨some (("Hi").data, ("ok").data),
            ("[AI] Hi\n[CANDIDATE] ok\n[QID] q2\n[AI] Next?\n").data,
            none⟩ : StoreEffects).completedWith.isSome)
      ↔ (pyTruthy ((lookupD
            [(("question").data, Jv.str ("Next?").data),
             (("feedback").data, Jv.str ("f").data),
             (("stop_interview").data, Jv.bool false)]
            ("stop_interview").data).getD (Jv.bool false)) = true
          ∨ shouldForceStop 0 1000 MAX_INTERVIEW_DURATION_MS = true)) := by
  refine ⟨rfl, ?_⟩
  exact c7_force_stop_policy.2.2.2
    ⟨("started").data, ("[AI] Hi\n").data, some 0, none⟩ 1 1000
    ("ok").data
    ("\x7b\"question\": \"Next?\", \"feedback\": \"f\", \"stop_interview\": false\x7d").data
    ("\x7b\x7d").data ("x").data ("q2").data 0
    [(("question").data, Jv.str ("Next?").data),
     (("feedback").data, Jv.str ("f").data),
     (("stop_interview").data, Jv.bool false)]
    ⟨some (Jv.str ("Next?").data), some (Jv.str ("f").data), ("running").data, none⟩
    ⟨some (("Hi").data, ("ok").data),
     ("[AI] Hi\n[CANDIDATE] ok\n[QID] q2\n[AI] Next?\n").data, none⟩
    rfl rfl rfl

/-! ## Helper lemmas: the transcript round trip (C1) -/

theorem replAux_of_not_contains (pat repl : Str) (fuel : Nat) (s : Str)
    (h : containsSub pat s = false) (hf : s.length ≤ fuel) :
    replAux pat repl fuel s = s := by
  induction fuel generalizing s with
  | zero =>
    have : s = [] := List.eq_nil_of_length_eq_zero (Nat.le_zero.mp hf)
    subst this
    rfl
  | succ fuel ih =>
    cases s with
    | nil => rfl
    | cons c rest =>
      simp only [containsSub, Bool.or_eq_false_iff] at h
      obtain ⟨h1, h2⟩ := h
      have hlen : rest.length ≤ fuel := by
        simpa using Nat.succ_le_succ_iff.mp (by simpa using hf)
      simp only [replAux, h1, Bool.false_eq_true, false_and, if_false]
      rw [ih rest h2 hlen]

theorem strReplaceAll_append (pat repl s : Str) (hp : pat ≠ [])
    (h : containsSub pat s = false) :
    strReplaceAll pat repl (pat ++ s) = repl ++ s := by
  obtain ⟨p0, pr, hpr⟩ := List.exists_cons_of_ne_nil hp
  subst hpr
  show replAux _ _ (((p0 :: pr) ++ s).length) ((p0 :: pr) ++ s) = _
  have hlen : ((p0 :: pr) ++ s).length = (pr.length + s.length) + 1 := by
    simp [List.length_append]
  rw [hlen, List.cons_append]
  have hpre : (p0 :: pr).isPrefixOf (p0 :: (pr ++ s)) = true := by
    rw [← List.cons_append]
    exact List.isPrefixOf_iff_prefix.mpr (List.prefix_append _ _)
  have hcond : ((p0 :: pr).isPrefixOf (p0 :: (pr ++ s)) = true) ∧ (p0 :: pr) ≠ [] :=
    ⟨hpre, hp⟩
  have harm : replAux (p0 :: pr) repl ((pr.length + s.length) + 1) (p0 :: (pr ++ s))
      = repl ++ replAux (p0 :: pr) repl (pr.length + s.length)
          ((pr ++ s).drop ((p0 :: pr).length - 1)) := by
    simp only [replAux]
    rw [if_pos hcond]
  rw [harm]
  have hdrop : (pr ++ s).drop ((p0 :: pr).length - 1) = s := by
    simp only [List.length_cons, Nat.add_sub_cancel]
    exact List.drop_left _ _
  rw [hdrop, replAux_of_not_contains _ _ _ _ h (Nat.le_add_left _ _)]

theorem classifyLine_encodeTurn (tr : Turn)
    (htag : containsSub (match tr.type with
        | TurnType.question => aiTag
        | TurnType.answer => candTag) tr.content = false) :
    classifyLine (encodeTurn tr) = some tr := by
  obtain ⟨ty, content⟩ := tr
  cases ty with
  | question =>
    simp only at htag
    have hpre : aiTag.isPrefixOf (aiTag ++ content) = true :=
      List.isPrefixOf_iff_prefix.mpr (List.prefix_append _ _)
    simp only [classifyLine, encodeTurn, hpre, if_pos]
    rw [strReplaceAll_append _ _ _ (by decide) htag]
    rfl
  | answer =>
    simp only at htag
    have hpre : candTag.isPrefixOf (candTag ++ content) = true :=
      List.isPrefixOf_iff_prefix.mpr (List.prefix_append _ _)
    have hnotai : aiTag.isPrefixOf (candTag ++ content) = false :=
      not_isPrefixOf_of_incomparable aiTag candTag (candTag ++ content) hpre
        (by decide) (by decide)
    simp only [classifyLine, encodeTurn, hnotai, Bool.false_eq_true, if_false, hpre,
      if_pos]
    rw [strReplaceAll_append _ _ _ (by decide) htag]
    rfl

theorem filterMap_classify_encode (ts : List Turn)
    (htag : ∀ tr ∈ ts, containsSub (match tr.type with
        | TurnType.question => aiTag
        | TurnType.answer => candTag) tr.content = false) :
    (ts.map encodeTurn).filterMap classifyLine = ts := by
  induction ts with
  | nil => rfl
  | cons t rest ih =>
    simp only [List.map_cons, List.filterMap_cons,
      classifyLine_encodeTurn t (htag t (List.mem_cons_self t rest))]
    rw [ih (fun tr htr => htag tr (List.mem_cons_of_mem t htr))]

theorem encodeTranscript_eq_interNL (ts : List Turn) (h : ts ≠ []) :
    encodeTranscript ts = interNL (ts.map encodeTurn) ++ ['\n'] := by
  induction ts with
  | nil => cases h rfl
  | cons t rest ih =>
    cases rest with
    | nil => rfl
    | cons t2 rest2 =>
      have ih2 := ih (by simp)
      rw [show encodeTranscript (t :: t2 :: rest2)
          = encodeTurn t ++ '\n' :: encodeTranscript (t2 :: rest2) from rfl, ih2,
        show interNL (List.map encodeTurn (t :: t2 :: rest2))
          = encodeTurn t ++ '\n' :: interNL (List.map encodeTurn (t2 :: rest2))
          from rfl]
      simp [List.append_assoc]

theorem head?_append_left (l m : Str) (h : l ≠ []) : (l ++ m).head? = l.head? := by
  cases l with
  | nil => cases h rfl
  | cons c cs => rfl

theorem interNL_head? (l : Str) (ls : List Str) (h : l ≠ []) :
    (interNL (l :: ls)).head? = l.head? := by
  cases ls with
  | nil => rfl
  | cons l2 ls2 => exact head?_append_left _ _ h

theorem getLast?_append_right (l m : Str) (h : m ≠ []) :
    (l ++ m).getLast? = m.getLast? := by
  rw [← List.head?_reverse, ← List.head?_reverse, List.reverse_append]
  exact head?_append_left _ _ (by simpa using h)

theorem interNL_getLast? (ls : List Str) (l : Str) (h : l ≠ []) :
    (interNL (ls ++ [l])).getLast? = l.getLast? := by
  induction ls with
  | nil => rfl
  | cons a ls ih =>
    obtain ⟨z0, zs, hz⟩ : ∃ z0 zs, ls ++ [l] = z0 :: zs := by
      cases ls <;> exact ⟨_, _, rfl⟩
    have hstep : interNL (a :: (ls ++ [l])) = a ++ '\n' :: interNL (ls ++ [l]) := by
      rw [hz]
      rfl
    have hwne : interNL (ls ++ [l]) ≠ [] := by
      intro he
      have hsome : l.getLast?.isSome := List.getLast?_isSome.mpr h
      rw [← ih, he] at hsome
      simp at hsome
    rw [List.cons_append, hstep, getLast?_append_right _ _ (by simp),
      show ('\n' :: interNL (ls ++ [l]) : Str) = ['\n'] ++ interNL (ls ++ [l]) from rfl,
      getLast?_append_right _ _ hwne]
    exact ih

theorem strTrim_append_newline (x : Str) (c d : Char)
    (hh : x.head? = some c) (hc : isWS c = false)
    (hl : x.getLast? = some d) (hd : isWS d = false) :
    strTrim (x ++ ['\n']) = x := by
  have h1 : (x ++ ['\n']).dropWhile isWS = x ++ ['\n'] := by
    cases x with
    | nil => simp at hh
    | cons x0 xs =>
      have hx0 : x0 = c := by simpa using hh
      subst hx0
      simp [List.dropWhile_cons, hc]
  have h2 : x.reverse.head? = some d := by rw [List.head?_reverse]; exact hl
  have h3 : (x.reverse).dropWhile isWS = x.reverse := by
    cases hxr : x.reverse with
    | nil => rfl
    | cons r0 rs =>
      rw [hxr] at h2
      have hr0 : r0 = d := by simpa using h2
      subst hr0
      simp [List.dropWhile_cons, hd]
  unfold strTrim
  rw [h1, List.reverse_append]
  rw [show ((['\n'] : Str).reverse ++ x.reverse) = '\n' :: x.reverse from rfl]
  rw [List.dropWhile_cons]
  simp only [show isWS '\n' = true from rfl, if_true]
  rw [h3, List.reverse_reverse]

theorem strSplitOn_no_sep (sep : Char) (l : Str) (h : sep ∉ l) :
    strSplitOn sep l = [l] := by
  induction l with
  | nil => rfl
  | cons c cs ih =>
    simp only [List.mem_cons, not_or] at h
    have hc : ¬ c = sep := fun he => h.1 he.symm
    simp only [strSplitOn, if_neg hc, ih h.2]

theorem strSplitOn_append_cons (sep : Char) (l rest : Str) (h : sep ∉ l) :
    strSplitOn sep (l ++ sep :: rest) = l :: strSplitOn sep rest := by
  induction l with
  | nil => simp [strSplitOn]
  | cons c cs ih =>
    simp only [List.mem_cons, not_or] at h
    have hc : ¬ c = sep := fun he => h.1 he.symm
    rw [show ((c :: cs) ++ sep :: rest : Str) = c :: (cs ++ sep :: rest) from rfl]
    simp only [strSplitOn, if_neg hc, List.append_eq, ih h.2]

theorem strSplitOn_interNL (ls : List Str) (h : ls ≠ [])
    (hnl : ∀ l ∈ ls, '\n' ∉ l) :
    strSplitOn '\n' (interNL ls) = ls := by
  induction ls with
  | nil => cases h rfl
  | cons l ls ih =>
    cases ls with
    | nil => exact strSplitOn_no_sep _ _ (hnl l (List.mem_cons_self l []))
    | cons l2 ls2 =>
      rw [show interNL (l :: l2 :: ls2) = l ++ '\n' :: interNL (l2 :: ls2) from rfl]
      rw [strSplitOn_append_cons _ _ _ (hnl l (List.mem_cons_self l _))]
      rw [ih (by simp) (fun x hx => hnl x (List.mem_cons_of_mem l hx))]

theorem encodeTurn_ne_nil (tr : Turn) : encodeTurn tr ≠ [] := by
  obtain ⟨ty, content⟩ := tr
  cases ty with
  | question =>
    rw [show encodeTurn ⟨TurnType.question, content⟩
        = '[' :: (("AI] ").data ++ content) from rfl]
    simp
  | answer =>
    rw [show encodeTurn ⟨TurnType.answer, content⟩
        = '[' :: (("CANDIDATE] ").data ++ content) from rfl]
    simp

theorem encodeTurn_head? (tr : Turn) : (encodeTurn tr).head? = some '[' := by
  obtain ⟨ty, content⟩ := tr
  cases ty <;> rfl

theorem encodeTurn_getLast? (tr : Turn) (h : tr.content ≠ []) :
    (encodeTurn tr).getLast? = tr.content.getLast? := by
  obtain ⟨ty, content⟩ := tr
  cases ty with
  | question => exact getLast?_append_right aiTag content h
  | answer => exact getLast?_append_right candTag content h

theorem encodeTurn_no_newline (tr : Turn) (h : '\n' ∉ tr.content) :
    '\n' ∉ encodeTurn tr := by
  obtain ⟨ty, content⟩ := tr
  intro hmem
  cases ty with
  | question =>
    rw [show encodeTurn ⟨TurnType.question, content⟩ = aiTag ++ content from rfl] at hmem
    rcases List.mem_append.mp hmem with hm | hm
    · exact absurd hm (by decide)
    · exact h hm
  | answer =>
    rw [show encodeTurn ⟨TurnType.answer, content⟩ = candTag ++ content from rfl] at hmem
    rcases List.mem_append.mp hmem with hm | hm
    · exact absurd hm (by decide)
    · exact h hm

/-- C1 counterexample: the content `"a [AI] b"` contains no line separator,
yet the round trip changes it to `"a b"` because Python's `replace`
removes the embedded tag occurrence as well. -/
theorem c1_counterexample_embedded_tag :
    ('\n' ∉ (("a [AI] b").data : Str))
    ∧ buildHistoryFromTranscript
        (encodeTranscript [⟨TurnType.question, ("a [AI] b").data⟩])
        = [⟨TurnType.question, ("a b").data⟩]
    ∧ buildHistoryFromTranscript
        (encodeTranscript [⟨TurnType.question, ("a [AI] b").data⟩])
        ≠ [⟨TurnType.question, ("a [AI] b").data⟩] :=
  ⟨by decide, by decide, by decide⟩

/-- C1 (corrected): decoding inverts encoding for every list of turns whose
contents are free of line separators, provided additionally that no
question content contains the `"[AI] "` tag string and no answer content
contains the `"[CANDIDATE] "` tag string (Python's `replace` would delete
such embedded occurrences), and that the final turn's content is non-empty
and does not end in whitespace (the decoder strips the transcript before
splitting, which would truncate a trailing-whitespace last line). -/
theorem c1_roundtrip_amended (ts : List Turn)
    (hnl : ∀ tr ∈ ts, '\n' ∉ tr.content)
    (htag : ∀ tr ∈ ts, containsSub (match tr.type with
        | TurnType.question => aiTag
        | TurnType.answer => candTag) tr.content = false)
    (hlast : ∀ tr, ts.getLast? = some tr →
        ∃ d, tr.content.getLast? = some d ∧ isWS d = false) :
    buildHistoryFromTranscript (encodeTranscript ts) = ts := by
  by_cases hempty : ts = []
  · subst hempty
    rfl
  · obtain ⟨tl, htl⟩ : ∃ tl, ts.getLast? = some tl := by
      have := List.getLast?_isSome.mpr hempty
      cases hq : ts.getLast? with
      | none => rw [hq] at this; cases this
      | some tr => exact ⟨tr, rfl⟩
    obtain ⟨d, hld, hwd⟩ := hlast tl htl
    have hlinesne : ts.map encodeTurn ≠ [] := by simp [hempty]
    obtain ⟨t0, ts', hts0⟩ := List.exists_cons_of_ne_nil hempty
    have hhead : (interNL (ts.map encodeTurn)).head? = some '[' := by
      rw [hts0, List.map_cons, interNL_head? _ _ (encodeTurn_ne_nil t0)]
      exact encodeTurn_head? t0
    have hcne : tl.content ≠ [] := by
      intro he
      rw [he] at hld
      cases hld
    have hlastline : (interNL (ts.map encodeTurn)).getLast? = some d := by
      have hsnoc : ts.dropLast ++ [ts.getLast hempty] = ts :=
        List.dropLast_append_getLast hempty
      have htl2 : ts.getLast hempty = tl := by
        rw [List.getLast?_eq_getLast ts hempty] at htl
        exact Option.some.inj htl
      have hmap : ts.map encodeTurn
          = (ts.dropLast.map encodeTurn) ++ [encodeTurn tl] := by
        conv_lhs => rw [← hsnoc]
        rw [List.map_append, htl2]
        rfl
      rw [hmap, interNL_getLast? _ _ (encodeTurn_ne_nil tl),
        encodeTurn_getLast? tl hcne]
      exact hld
    rw [encodeTranscript_eq_interNL ts hempty, buildHistory_eq_filterMap,
      strTrim_append_newline _ '[' d hhead (by decide) hlastline hwd,
      strSplitOn_interNL _ hlinesne ?hnl2]
    case hnl2 =>
      intro l hl
      obtain ⟨tr, htr, hrfl⟩ := List.mem_map.mp hl
      subst hrfl
      exact encodeTurn_no_newline tr (hnl tr htr)
    exact filterMap_classify_encode ts htag

/-- Witness for C1 at a two-turn conversation. -/
theorem c1_roundtrip_amended_witness :
    buildHistoryFromTranscript (encodeTranscript
        [⟨TurnType.question, ("Tell me about yourself").data⟩,
         ⟨TurnType.answer, ("I am an engineer").data⟩])
      = [⟨TurnType.question, ("Tell me about yourself").data⟩,
         ⟨TurnType.answer, ("I am an engineer").data⟩] :=
  c1_roundtrip_amended _ (by decide) (by decide)
    (by
      intro tr htr
      have hB : (⟨TurnType.answer, ("I am an engineer").data⟩ : Turn) = tr :=
        Option.some.inj htr
      subst hB
      exact ⟨'r', rfl, rfl⟩)

